import Mathlib

/-!
Verification of `cursor-git-tracker.py`, a watcher that batches file
modifications into git commits and periodically rotates backup branches.

The development is a shallow embedding of the Python source:

* `fnmatch` / `globMatch` model `fnmatch.fnmatch` on POSIX (where
  `os.path.normcase` is the identity) for patterns built from literal
  characters, `*` and `?`.  None of the patterns used by this program
  contain `[...]` character classes, so these are not modelled.
* `Config` and `DEFAULT_CONFIG` model the `Config.DEFAULT_CONFIG`
  dictionary (lines 25-104).  Timestamps are modelled as integers (the
  Python code uses `time.time()` floats; only differences and
  comparisons of timestamps occur, so the embedding is over `Int`).
* `HandlerState`, `should_track_file`, `on_modified`, `_try_commit` and
  `_create_commit` model the `CursorChangeHandler` class (lines 118-217).
  The Python `set` field `pending_changes` is modelled as a duplicate-free
  `List String`; the order of the list stands for the iteration order of
  the set, which in CPython is hash-dependent and is not insertion order.
* `Repo`, `_create_backup_branch` and `_cleanup_backup_branches` model the
  repository state visible to the rotator (lines 166-197): the list of
  branch heads (each with the timestamp of the commit it points to) and
  the name of the checked-out branch.
-/

namespace CursorGitTracker

/-- All suffixes of a character list, longest first (including the list
itself and the empty suffix). -/
def suffixes : List Char → List (List Char)
  | [] => [[]]
  | c :: s => (c :: s) :: suffixes s

/-- Core of the `fnmatch.fnmatch` model: full-string glob matching of a
pattern (first argument) against a name (second argument).  `*` matches
any sequence of characters including `/` — exactly as in Python's
`fnmatch`, which translates `*` to the regex `.*` with no special
treatment of path separators.  `?` matches any single character.  Every
other pattern character matches only itself. -/
def globMatch : List Char → List Char → Bool
  | [], s => s.isEmpty
  | '*' :: p, s => (suffixes s).any (globMatch p)
  | '?' :: p, s =>
    match s with
    | [] => false
    | _ :: s2 => globMatch p s2
  | c :: p, s =>
    match s with
    | [] => false
    | d :: s2 => c == d && globMatch p s2

/-- Model of `fnmatch.fnmatch(name, pat)` on POSIX for patterns without
character classes (argument order as in Python). -/
def fnmatch (name pat : String) : Bool := globMatch pat.toList name.toList

/-- Model of Python `s.startswith(pre)`. -/
def startswith (s pre : String) : Bool := pre.toList.isPrefixOf s.toList

/-- The configuration keys consumed by `CursorChangeHandler` (the merged
dictionary produced by `Config.load_config`).  `commit_cooldown` is in
seconds (source line 102); the backup interval is hard-coded to 3600
seconds at line 162 and is therefore not a field here. -/
structure Config where
  file_patterns : List String
  ignore_patterns : List String
  backup_branch_prefix : String
  max_backup_branches : Nat
  commit_cooldown : Int
  create_backup_branches : Bool
deriving DecidableEq

/-- `Config.DEFAULT_CONFIG` (source lines 26-104), with every pattern
transcribed. -/
def DEFAULT_CONFIG : Config where
  file_patterns :=
    [ "**/*.py", "**/*.js", "**/*.jsx", "**/*.ts", "**/*.tsx",
      "**/*.java", "**/*.cpp", "**/*.c", "**/*.h", "**/*.cs",
      "**/*.go", "**/*.rb", "**/*.php", "**/*.swift", "**/*.kt",
      "**/*.html", "**/*.css", "**/*.scss", "**/*.sass", "**/*.less",
      "**/*.vue", "**/*.svelte",
      "**/*.json", "**/*.yml", "**/*.yaml", "**/*.xml", "**/*.md",
      "**/*.markdown", "**/README*", "**/LICENSE*", "**/*.config.*" ]
  ignore_patterns :=
    [ "**/.git/**", "**/.svn/**", "**/.hg/**",
      "**/node_modules/**", "**/venv/**", "**/.virtualenv/**",
      "**/vendor/**", "**/.bundle/**",
      "**/build/**", "**/dist/**", "**/out/**", "**/target/**",
      "**/bin/**", "**/obj/**",
      "**/__pycache__/**", "**/.cache/**", "**/.temp/**", "**/.tmp/**",
      "**/.idea/**", "**/.vscode/**", "**/.vs/**",
      "**/logs/**", "**/*.log", "**/debug/**",
      "**/.DS_Store", "**/Thumbs.db", "**/*.swp", "**/*.swo" ]
  backup_branch_prefix := "cursor-backup"
  max_backup_branches := 5
  commit_cooldown := 5
  create_backup_branches := true

/-- The mutable state of `CursorChangeHandler` that the aggregator
reads and writes (source lines 122-125): `last_commit_time`,
`pending_changes` and `last_backup_time`.  `pending_changes` lists the
elements of the Python set in its iteration order. -/
structure HandlerState where
  last_commit_time : Int
  pending_changes : List String
  last_backup_time : Int
deriving DecidableEq

/-- `CursorChangeHandler.__init__` (lines 119-125): both timestamps are
initialized from `time.time()` at construction.  The two calls at lines
122 and 125 are modelled by the two parameters `tc` and `tb`. -/
def CursorChangeHandler.init (tc tb : Int) : HandlerState where
  last_commit_time := tc
  pending_changes := []
  last_backup_time := tb

/-- `CursorChangeHandler.should_track_file` (lines 127-140) applied to the
relative path (the source computes `os.path.relpath` first; the embedding
works with relative paths directly).  Ignore patterns are scanned first
and any match returns `false`; otherwise any `file_patterns` match
returns `true`; otherwise `false`. -/
def should_track_file (cfg : Config) (relative_path : String) : Bool :=
  if cfg.ignore_patterns.any (fun pat => fnmatch relative_path pat) then false
  else cfg.file_patterns.any (fun pat => fnmatch relative_path pat)

/-- Model of `self.pending_changes.add(relative_path)` (line 151): a set
insert.  A duplicate leaves the set unchanged; a new element extends the
enumeration. -/
def setAdd (l : List String) (s : String) : List String :=
  if s ∈ l then l else l ++ [s]

/-- `CursorChangeHandler._create_commit` (lines 199-217).  The `commit_ok`
flag is the oracle for the underlying git operations (staging at lines
202-203 and `self.repo.index.commit` at line 210): `false` means some git
call raised.  The broad `except` at lines 216-217 only logs, so the
function is total either way; `pending_changes.clear()` at line 214 runs
after the commit call, hence the set is cleared exactly on success.  The
result carries the commit message and the committed file list (the
enumeration of the pending set) when a commit was created. -/
def _create_commit (st : HandlerState) (ts : String) (commit_ok : Bool) :
    HandlerState × Option (String × List String) :=
  if commit_ok then
    let msg := "Cursor changes at " ++ ts ++ "\n\nFiles changed:\n" ++
      String.intercalate "\n" st.pending_changes
    ({ st with pending_changes := [] }, some (msg, st.pending_changes))
  else (st, none)

/-- What one call of `_try_commit` did, together with the state it left
behind. -/
structure TickResult where
  st : HandlerState
  flushed : Bool
  message : Option String
  committed : Option (List String)
  rotated : Bool
deriving DecidableEq

/-- `CursorChangeHandler._try_commit` (lines 154-164).  `now` is the
`time.time()` value read at line 155 and `ts` the `datetime.now()`
rendering used for the commit message.  The commit branch is entered iff
the cooldown has elapsed and the pending set is non-empty (line 156, in
that evaluation order); `last_commit_time` is then advanced regardless of
commit success (line 158).  Only inside that branch is the backup
condition tested (lines 161-162); when it holds, `_create_backup_branch`
is invoked — its effect on the repository is modelled separately by
`_create_backup_branch` below, and any exception it raises is caught at
lines 184-185, so `rotate_ok` does not influence the handler state —
and `last_backup_time` is advanced (line 164). -/
def _try_commit (cfg : Config) (st : HandlerState) (now : Int) (ts : String)
    (commit_ok rotate_ok : Bool) : TickResult :=
  if cfg.commit_cooldown ≤ now - st.last_commit_time && !st.pending_changes.isEmpty then
    if cfg.create_backup_branches && 3600 ≤ now - st.last_backup_time then
      { st := { (_create_commit st ts commit_ok).1 with
                  last_commit_time := now, last_backup_time := now },
        flushed := true,
        message := (_create_commit st ts commit_ok).2.map Prod.fst,
        committed := (_create_commit st ts commit_ok).2.map Prod.snd,
        rotated := true }
    else
      { st := { (_create_commit st ts commit_ok).1 with last_commit_time := now },
        flushed := true,
        message := (_create_commit st ts commit_ok).2.map Prod.fst,
        committed := (_create_commit st ts commit_ok).2.map Prod.snd,
        rotated := false }
  else
    { st := st, flushed := false, message := none, committed := none, rotated := false }

/-- `CursorChangeHandler.on_modified` (lines 142-152): directory events
and untracked paths are dropped; otherwise the relative path is added to
the pending set and `_try_commit` runs synchronously. -/
def on_modified (cfg : Config) (st : HandlerState) (is_directory : Bool)
    (relative_path : String) (now : Int) (ts : String)
    (commit_ok rotate_ok : Bool) : TickResult :=
  if is_directory then
    { st := st, flushed := false, message := none, committed := none, rotated := false }
  else if !should_track_file cfg relative_path then
    { st := st, flushed := false, message := none, committed := none, rotated := false }
  else
    _try_commit cfg
      { st with pending_changes := setAdd st.pending_changes relative_path }
      now ts commit_ok rotate_ok

/-- One filesystem modification event as delivered by watchdog, together
with the clock values and git-operation oracles of the tick that handles
it. -/
structure Ev where
  is_directory : Bool
  path : String
  time : Int
  ts : String
  commit_ok : Bool
  rotate_ok : Bool

/-- The observable outcome of one tick. -/
structure LogEntry where
  time : Int
  flushed : Bool
  committed : Option (List String)
  rotated : Bool
deriving DecidableEq

/-- Sequential processing of a list of events by the handler (watchdog
serializes callbacks; §5 of the design).  Returns the final state and the
per-event log. -/
def run (cfg : Config) (st : HandlerState) : List Ev → HandlerState × List LogEntry
  | [] => (st, [])
  | e :: rest =>
    let r := on_modified cfg st e.is_directory e.path e.time e.ts e.commit_ok e.rotate_ok
    let out := run cfg r.st rest
    (out.1, { time := e.time, flushed := r.flushed, committed := r.committed,
              rotated := r.rotated } :: out.2)

/-- The commit message format as the spec states it (§6): the literal
format string `"Cursor changes at {ts}\n\nFiles changed:\n"` followed by
the newline-separated path list.  Used to compare the code's message
construction against the spec's words. -/
def specCommitMessage (ts : String) (paths : List String) : String :=
  "Cursor changes at " ++ ts ++ "\n\nFiles changed:\n" ++
    String.intercalate "\n" paths

/-- A git commit, reduced to the only attribute the program reads:
`committed_datetime` (line 191), modelled as an integer timestamp. -/
structure Commit where
  committed_datetime : Int
deriving DecidableEq

/-- A branch head: its name and the commit it points to. -/
structure Branch where
  name : String
  commit : Commit
deriving DecidableEq

/-- The repository state the rotator touches: the list of heads (in
`repo.heads` order; git keeps branch names unique) and the name of the
checked-out branch. -/
structure Repo where
  heads : List Branch
  active_branch : String
deriving DecidableEq

/-- The sort key relation of line 191 (`key=lambda x: x.commit.committed_datetime`). -/
def byTime (a b : Branch) : Prop :=
  a.commit.committed_datetime ≤ b.commit.committed_datetime

instance : DecidableRel byTime := fun a b =>
  inferInstanceAs (Decidable (a.commit.committed_datetime ≤ b.commit.committed_datetime))

instance : IsTotal Branch byTime :=
  ⟨fun a b => Int.le_total a.commit.committed_datetime b.commit.committed_datetime⟩

instance : IsTrans Branch byTime :=
  ⟨fun _ _ _ hab hbc => le_trans hab hbc⟩

/-- Python's `sorted(..., key=...)` (line 188-191): a stable sort,
ascending by commit timestamp.  `List.insertionSort` is stable, so ties
keep their `repo.heads` order as in CPython. -/
def sortByTime (l : List Branch) : List Branch := l.insertionSort byTime

/-- `self.repo.delete_head(branch, force=True)` (line 196): removes the
branch reference.  Branch names are unique in a git repository, so
removal by name is exact.  (git would refuse to delete the checked-out
branch; in this program the deleted branches are backup branches while a
work branch stays checked out, and the theorems below never delete the
active branch.) -/
def deleteHead (r : Repo) (n : String) : Repo :=
  { r with heads := r.heads.filter (fun b => !(b.name == n)) }

/-- The `while` loop of lines 194-197 over the sorted backup list: while
more than `max_backup_branches` remain, pop the oldest and delete it.
Returns the repository and the deleted names in deletion order. -/
def cleanupLoop (maxB : Nat) : List Branch → Repo → Repo × List String
  | [], r => (r, [])
  | b :: rest, r =>
    if rest.length + 1 > maxB then
      let out := cleanupLoop maxB rest (deleteHead r b.name)
      (out.1, b.name :: out.2)
    else (r, [])

/-- `CursorChangeHandler._cleanup_backup_branches` (lines 187-197):
collect the heads whose name starts with the configured backup branch
name prefix, sort them ascending by the timestamp of the commit they
point to, and delete the oldest while the count exceeds
`max_backup_branches`. -/
def _cleanup_backup_branches (cfg : Config) (r : Repo) : Repo × List String :=
  cleanupLoop cfg.max_backup_branches
    (sortByTime (r.heads.filter
      (fun b => startswith b.name cfg.backup_branch_prefix)))
    r

/-- The backup branch name of line 169: `f"{prefix}-{timestamp}"`. -/
def mkBackupName (cfg : Config) (ts : String) : String :=
  cfg.backup_branch_prefix ++ "-" ++ ts

/-- The repository right after `self.repo.create_head(branch_name)`
(line 173): a new head named `mkBackupName cfg ts` pointing at the commit
of `current`, the active branch found at line 172. -/
def afterCreate (cfg : Config) (r : Repo) (current : Branch) (ts : String) : Repo :=
  { r with heads := r.heads ++ [{ name := mkBackupName cfg ts, commit := current.commit }] }

/-- The repository right after `new_branch.checkout()` (line 174): the new
backup branch is transiently the checked-out branch. -/
def afterCheckoutNew (cfg : Config) (r : Repo) (current : Branch) (ts : String) : Repo :=
  { afterCreate cfg r current ts with active_branch := mkBackupName cfg ts }

/-- The repository after `current.checkout()` (line 177): back on the
original branch. -/
def afterCheckoutBack (cfg : Config) (r : Repo) (current : Branch) (ts : String) : Repo :=
  { afterCheckoutNew cfg r current ts with active_branch := current.name }

/-- `CursorChangeHandler._create_backup_branch` (lines 166-185).  `ts` is
the `datetime.now().strftime("%Y%m%d_%H%M%S")` string of line 168.
`none` models the caught-exception path (lines 184-185): the active
branch is missing (detached HEAD, line 172) or `create_head` raises
because the name already exists (line 173); in both cases the repository
is unchanged when the exception is raised.  On the success path the new
head is created pointing at the active branch tip (`afterCreate`),
checked out (`afterCheckoutNew`, line 174), the original branch is
checked out again (`afterCheckoutBack`, line 177) and retention cleanup
runs (line 180). -/
def _create_backup_branch (cfg : Config) (r : Repo) (ts : String) :
    Option (Repo × List String) :=
  match r.heads.find? (fun b => b.name == r.active_branch) with
  | none => none
  | some current =>
    if r.heads.any (fun b => b.name == mkBackupName cfg ts) then none
    else some (_cleanup_backup_branches cfg (afterCheckoutBack cfg r current ts))

/-- Advance the tip of the active branch to a commit with timestamp `t`:
the commit that `_create_commit` writes to the current branch just before
a rotation fires in the same `_try_commit` tick (line 157 before line
163). -/
def setTip (r : Repo) (t : Int) : Repo :=
  { r with heads := r.heads.map (fun b =>
      if b.name == r.active_branch then { b with commit := { committed_datetime := t } } else b) }

/-- A sequence of rotations: before each one, the just-created commit
(timestamp `t`) becomes the active branch tip, then
`_create_backup_branch` runs with timestamp string `ts`.  `none` as soon
as one rotation fails. -/
def rotationsFrom (cfg : Config) (r : Repo) : List (String × Int) → Option Repo
  | [] => some r
  | (ts, t) :: rest =>
    match _create_backup_branch cfg (setTip r t) ts with
    | none => none
    | some out => rotationsFrom cfg out.1 rest

/-- Concrete repository used by witnesses: a single `main` branch. -/
def repoW : Repo where
  heads := [{ name := "main", commit := { committed_datetime := 10 } }]
  active_branch := "main"

/-- A handler state whose pending set `{a.py, b.py}` enumerates as
`a.py, b.py`. -/
def stAB : HandlerState where
  last_commit_time := 0
  pending_changes := ["a.py", "b.py"]
  last_backup_time := 0

/-- The same pending set as `stAB`, enumerated in the other order. -/
def stBA : HandlerState where
  last_commit_time := 0
  pending_changes := ["b.py", "a.py"]
  last_backup_time := 0

/-- The relative paths that `on_modified` records out of an event list:
the paths of the non-directory events whose path is trackable, in arrival
order. -/
def trackedPaths (cfg : Config) (evs : List Ev) : List String :=
  (evs.filter (fun e => !e.is_directory && should_track_file cfg e.path)).map Ev.path

/-- A configuration with a root-level pattern, used by witnesses (the
default `**/*.py` patterns do not match root-level files under
`fnmatch`, see C9). -/
def cfgW3 : Config where
  file_patterns := ["*.py"]
  ignore_patterns := []
  backup_branch_prefix := "cursor-backup"
  max_backup_branches := 5
  commit_cooldown := 5
  create_backup_branches := true

/-- A tracked-file modification event at time `t`, used by witnesses. -/
def evW (p : String) (t : Int) : Ev where
  is_directory := false
  path := p
  time := t
  ts := "2024-01-01 00:00:00"
  commit_ok := true
  rotate_ok := true

/-- The event sequence of the cooldown scenario: `a.py` at t=0, `b.py` at
t=2, `a.py` again at t=4, with a 5 second cooldown. -/
def evsW3 : List Ev := [evW "a.py" 0, evW "b.py" 2, evW "a.py" 4]

/-- The flush-triggering event at t=5 of the cooldown scenario. -/
def efinW3 : Ev := evW "a.py" 5

/-! ### Helper lemmas -/

theorem cleanupLoop_fst_active (maxB : Nat) :
    ∀ (bs : List Branch) (r : Repo),
      ((cleanupLoop maxB bs r).1).active_branch = r.active_branch
  | [], _ => rfl
  | b :: rest, r => by
    unfold cleanupLoop
    split
    · exact cleanupLoop_fst_active maxB rest (deleteHead r b.name)
    · rfl

theorem setAdd_mem (l : List String) (s p : String) :
    p ∈ setAdd l s ↔ p ∈ l ∨ p = s := by
  unfold setAdd
  split
  · next h => constructor
              · exact fun hp => Or.inl hp
              · rintro (hp | rfl)
                · exact hp
                · exact h
  · simp

theorem setAdd_nodup (l : List String) (s : String) (h : l.Nodup) :
    (setAdd l s).Nodup := by
  unfold setAdd
  split
  · exact h
  · next hn => simpa [List.nodup_append] using ⟨h, fun hs => hn hs⟩

theorem setAdd_ne_nil (l : List String) (s : String) : setAdd l s ≠ [] := by
  unfold setAdd
  split
  · next h => exact List.ne_nil_of_mem h
  · simp

/-- Case analysis of `_try_commit` with the two guards stated as
propositions. -/
theorem try_commit_cases (cfg : Config) (st : HandlerState) (now : Int)
    (ts : String) (commit_ok rotate_ok : Bool) :
    _try_commit cfg st now ts commit_ok rotate_ok =
      if cfg.commit_cooldown ≤ now - st.last_commit_time ∧ st.pending_changes ≠ [] then
        if cfg.create_backup_branches = true ∧ (3600 : Int) ≤ now - st.last_backup_time then
          { st := { (_create_commit st ts commit_ok).1 with
                      last_commit_time := now, last_backup_time := now },
            flushed := true,
            message := (_create_commit st ts commit_ok).2.map Prod.fst,
            committed := (_create_commit st ts commit_ok).2.map Prod.snd,
            rotated := true }
        else
          { st := { (_create_commit st ts commit_ok).1 with last_commit_time := now },
            flushed := true,
            message := (_create_commit st ts commit_ok).2.map Prod.fst,
            committed := (_create_commit st ts commit_ok).2.map Prod.snd,
            rotated := false }
      else
        { st := st, flushed := false, message := none, committed := none,
          rotated := false } := by
  unfold _try_commit
  split_ifs <;> simp_all

theorem create_commit_times (st : HandlerState) (ts : String) (cok : Bool) :
    (_create_commit st ts cok).1.last_commit_time = st.last_commit_time ∧
    (_create_commit st ts cok).1.last_backup_time = st.last_backup_time := by
  cases cok <;> simp [_create_commit]

/-- During a window in which every event arrives less than
`commit_cooldown` after `last_commit_time`, no tick flushes, commits or
rotates; the two timestamps are unchanged; and the pending set grows to
the union of the initial pending set and the tracked paths of the window,
staying duplicate-free. -/
theorem run_window (cfg : Config) :
    ∀ (evs : List Ev) (st : HandlerState),
      (∀ e ∈ evs, e.time - st.last_commit_time < cfg.commit_cooldown) →
      (run cfg st evs).1.last_commit_time = st.last_commit_time ∧
      (run cfg st evs).1.last_backup_time = st.last_backup_time ∧
      (st.pending_changes.Nodup → (run cfg st evs).1.pending_changes.Nodup) ∧
      (∀ p, p ∈ (run cfg st evs).1.pending_changes ↔
        p ∈ st.pending_changes ∨ p ∈ trackedPaths cfg evs) ∧
      (∀ entry ∈ (run cfg st evs).2,
        entry.flushed = false ∧ entry.committed = none ∧ entry.rotated = false) := by
  intro evs
  induction evs with
  | nil =>
    intro st _
    refine ⟨rfl, rfl, fun h => h, ?_, ?_⟩
    · intro p
      simp [run, trackedPaths]
    · intro entry he
      simp [run] at he
  | cons e rest ih =>
    intro st hw
    have hnle : ¬(cfg.commit_cooldown ≤ e.time - st.last_commit_time) :=
      not_le.mpr (hw e (by simp))
    by_cases hd : e.is_directory = true
    · have hr : on_modified cfg st e.is_directory e.path e.time e.ts e.commit_ok e.rotate_ok
          = { st := st, flushed := false, message := none, committed := none,
              rotated := false } := by
        simp [on_modified, hd]
      have hrest := ih st (fun e2 h2 => hw e2 (by simp [h2]))
      refine ⟨?_, ?_, ?_, ?_, ?_⟩ <;>
        simp only [run, hr, trackedPaths, List.filter_cons, hd] <;> simp_all [trackedPaths]
    · by_cases htr : should_track_file cfg e.path = true
      · have hr : on_modified cfg st e.is_directory e.path e.time e.ts e.commit_ok e.rotate_ok
            = { st := { st with pending_changes := setAdd st.pending_changes e.path },
                flushed := false, message := none, committed := none,
                rotated := false } := by
          simp only [on_modified, hd, if_false, Bool.not_eq_true] at *
          simp only [hd, Bool.false_eq_true, if_false, htr, Bool.not_true, if_neg]
          rw [try_commit_cases, if_neg]
          rintro ⟨hle, _⟩
          exact hnle hle
        have hrest := ih { st with pending_changes := setAdd st.pending_changes e.path }
          (fun e2 h2 => hw e2 (by simp [h2]))
        obtain ⟨ih1, ih2, ih3, ih4, ih5⟩ := hrest
        refine ⟨?_, ?_, ?_, ?_, ?_⟩
        · simp only [run, hr]
          exact ih1
        · simp only [run, hr]
          exact ih2
        · intro hnd
          simp only [run, hr]
          exact ih3 (setAdd_nodup _ _ hnd)
        · intro p
          simp only [run, hr]
          rw [ih4 p, setAdd_mem]
          have hpaths : trackedPaths cfg (e :: rest) = e.path :: trackedPaths cfg rest := by
            simp [trackedPaths, List.filter_cons, hd, htr]
          rw [hpaths]
          simp only [List.mem_cons]
          tauto
        · intro entry he
          simp only [run, hr, List.mem_cons] at he
          rcases he with he | he
          · rw [he]
            exact ⟨rfl, rfl, rfl⟩
          · exact ih5 entry he
      · have hr : on_modified cfg st e.is_directory e.path e.time e.ts e.commit_ok e.rotate_ok
            = { st := st, flushed := false, message := none, committed := none,
                rotated := false } := by
          simp [on_modified, hd, htr]
        have hrest := ih st (fun e2 h2 => hw e2 (by simp [h2]))
        obtain ⟨ih1, ih2, ih3, ih4, ih5⟩ := hrest
        have hpaths : trackedPaths cfg (e :: rest) = trackedPaths cfg rest := by
          simp [trackedPaths, List.filter_cons, hd, htr]
        refine ⟨?_, ?_, ?_, ?_, ?_⟩
        · simp only [run, hr]
          exact ih1
        · simp only [run, hr]
          exact ih2
        · intro hnd
          simp only [run, hr]
          exact ih3 hnd
        · intro p
          simp only [run, hr]
          rw [ih4 p, hpaths]
        · intro entry he
          simp only [run, hr, List.mem_cons] at he
          rcases he with he | he
          · rw [he]
            exact ⟨rfl, rfl, rfl⟩
          · exact ih5 entry he

/-! ### C2: the flush decision -/

/-- C2: a flush (commit attempt) occurs iff the pending change set is
non-empty and `now - lastCommitTime >= commitCooldownSeconds`; with an
empty pending set no tick ever attempts or produces a commit, for every
value of `now`. -/
theorem C2_flush_decision (cfg : Config) (st : HandlerState) (now : Int)
    (ts : String) (commit_ok rotate_ok : Bool) :
    ((_try_commit cfg st now ts commit_ok rotate_ok).flushed = true ↔
      st.pending_changes ≠ [] ∧ cfg.commit_cooldown ≤ now - st.last_commit_time) ∧
    (_try_commit cfg { st with pending_changes := [] } now ts commit_ok rotate_ok).flushed
      = false ∧
    (_try_commit cfg { st with pending_changes := [] } now ts commit_ok rotate_ok).committed
      = none := by
  refine ⟨?_, ?_, ?_⟩
  · simp only [try_commit_cases]
    split_ifs with h1 h2
    · simpa using ⟨h1.2, h1.1⟩
    · simpa using ⟨h1.2, h1.1⟩
    · constructor
      · intro hh
        exact absurd hh (by simp)
      · rintro ⟨hne, hle⟩
        exact absurd ⟨hle, hne⟩ h1
  · simp [try_commit_cases]
  · simp [try_commit_cases]

/-! ### C5: failed flush behavior -/

/-- C5: on commit-producer failure (`commit_ok = false`) the pending set
is left untouched and `last_commit_time` is still advanced to `now`
whenever the flush condition held; the pending set is cleared exactly
when a flush fires with a successful commit.  Totality of `_try_commit`
models that the broad `except` (lines 216-217) keeps any git exception
away from the caller. -/
theorem C5_failure_keeps_pending (cfg : Config) (st : HandlerState)
    (now : Int) (ts : String) (rotate_ok : Bool) :
    (_try_commit cfg st now ts false rotate_ok).st.pending_changes
      = st.pending_changes ∧
    (_try_commit cfg st now ts false rotate_ok).committed = none ∧
    (_try_commit cfg st now ts false rotate_ok).st.last_commit_time =
      (if cfg.commit_cooldown ≤ now - st.last_commit_time ∧ st.pending_changes ≠ []
        then now else st.last_commit_time) ∧
    (_try_commit cfg st now ts true rotate_ok).st.pending_changes =
      (if cfg.commit_cooldown ≤ now - st.last_commit_time ∧ st.pending_changes ≠ []
        then [] else st.pending_changes) := by
  refine ⟨?_, ?_, ?_, ?_⟩ <;> simp only [try_commit_cases] <;> split_ifs <;>
    simp_all [_create_commit]

/-! ### C1: when the backup condition is evaluated -/

/-- C1 counterexample: a tick on which no flush occurs (empty pending
set) although backups are enabled and more than 3600 seconds have passed
since `lastBackupTime`; the claim demands that the rotator be invoked and
`lastBackupTime` advance to `now`, but the code neither invokes the
rotator nor advances the timestamp. -/
theorem C1_counterexample :
    DEFAULT_CONFIG.create_backup_branches = true ∧
    (3600 : Int) ≤ 4000 - (CursorChangeHandler.init 0 0).last_backup_time ∧
    (_try_commit DEFAULT_CONFIG (CursorChangeHandler.init 0 0) 4000
      "2024-01-01 01:06:40" true true).flushed = false ∧
    (_try_commit DEFAULT_CONFIG (CursorChangeHandler.init 0 0) 4000
      "2024-01-01 01:06:40" true true).rotated = false ∧
    (_try_commit DEFAULT_CONFIG (CursorChangeHandler.init 0 0) 4000
      "2024-01-01 01:06:40" true true).st.last_backup_time = 0 := by
  refine ⟨rfl, by decide, rfl, rfl, rfl⟩

/-- C1 amended: the backup condition is evaluated only on ticks whose
flush fired (the check at lines 161-162 is inside the commit branch):
the rotator is invoked iff a flush occurred and `createBackupBranches`
is enabled and `now - lastBackupTime >= 3600`; when invoked,
`lastBackupTime` is advanced to `now` regardless of rotator success or
failure (last conjunct: the rotator outcome oracle does not influence
the result), otherwise it is unchanged. -/
theorem C1_amended (cfg : Config) (st : HandlerState) (now : Int)
    (ts : String) (commit_ok : Bool) :
    ((_try_commit cfg st now ts commit_ok true).rotated = true ↔
      ((_try_commit cfg st now ts commit_ok true).flushed = true ∧
        cfg.create_backup_branches = true ∧
        (3600 : Int) ≤ now - st.last_backup_time)) ∧
    (_try_commit cfg st now ts commit_ok true).st.last_backup_time =
      (if (_try_commit cfg st now ts commit_ok true).rotated then now
        else st.last_backup_time) ∧
    _try_commit cfg st now ts commit_ok true
      = _try_commit cfg st now ts commit_ok false := by
  refine ⟨?_, ?_, rfl⟩ <;> simp only [try_commit_cases] <;> split_ifs <;>
    cases commit_ok <;> simp_all [_create_commit]

/-! ### C4: the commit message -/

/-- C4 counterexample: two handler states holding the same pending change
set (the lists are permutations of each other, i.e. two iteration orders
of the same Python set) produce different commit message bytes, so the
rendered message is not determined by the pending change set: the
iteration order of a CPython string set depends on hash randomization and
is neither insertion order nor reproducible across runs. -/
theorem C4_counterexample :
    stAB.pending_changes.Perm stBA.pending_changes ∧
    (_create_commit stAB "2025-01-01 00:00:00" true).2 ≠
      (_create_commit stBA "2025-01-01 00:00:00" true).2 := by
  exact ⟨by decide, by decide⟩

/-- C4 amended: the message of every successful flush is byte-for-byte
`"Cursor changes at {ts}\n\nFiles changed:\n"` followed by the changed
relative paths one per line — in the iteration order of the pending set,
which is not a function of the set contents (not insertion order); a
tick produces this message exactly when the flush condition holds. -/
theorem C4_amended (cfg : Config) (st : HandlerState) (now : Int)
    (ts : String) (rotate_ok : Bool) :
    (_try_commit cfg st now ts true rotate_ok).message =
      (if cfg.commit_cooldown ≤ now - st.last_commit_time ∧ st.pending_changes ≠ []
        then some (specCommitMessage ts st.pending_changes) else none) := by
  simp only [try_commit_cases]
  split_ifs <;> simp [_create_commit, specCommitMessage]

/-! ### C9: the trackability predicate -/

/-- C9 counterexample: the path `build/output.js` matches no default
ignore pattern (under `fnmatch`, `**/build/**` requires a literal slash
before `build`, which a repository-root path does not have), it matches
the tracked extension pattern `**/*.js`, `should_track_file` returns
`true` for it, and a modification event for it is recorded in the
pending change set — contradicting the claim's example. -/
theorem C9_counterexample :
    DEFAULT_CONFIG.ignore_patterns.all
      (fun pat => !fnmatch "build/output.js" pat) = true ∧
    fnmatch "build/output.js" "**/*.js" = true ∧
    should_track_file DEFAULT_CONFIG "build/output.js" = true ∧
    (on_modified DEFAULT_CONFIG (CursorChangeHandler.init 0 0) false
      "build/output.js" 0 "2024-01-01 00:00:00" true true).st.pending_changes
      = ["build/output.js"] := by
  refine ⟨by decide, by decide, by decide, by decide⟩

/-- C9 amended: ignore patterns are evaluated first and short-circuit to
untracked, so every path matching some ignore pattern is never tracked
and never recorded as a pending change, even if it also matches a
file pattern — e.g. `src/build/output.js`, which matches both
`**/build/**` and `**/*.js`.  The root-level path `build/output.js` of
the original claim, however, matches no default ignore pattern and is
tracked (see the counterexample). -/
theorem C9_amended (cfg : Config) (p : String) (st : HandlerState)
    (isDir : Bool) (now : Int) (ts : String) (commit_ok rotate_ok : Bool)
    (h : cfg.ignore_patterns.any (fun pat => fnmatch p pat) = true) :
    should_track_file cfg p = false ∧
    (on_modified cfg st isDir p now ts commit_ok rotate_ok).st = st ∧
    (on_modified cfg st isDir p now ts commit_ok rotate_ok).flushed = false ∧
    (on_modified cfg st isDir p now ts commit_ok rotate_ok).committed = none := by
  have hst : should_track_file cfg p = false := by
    simp [should_track_file, h]
  refine ⟨hst, ?_, ?_, ?_⟩ <;> cases isDir <;> simp [on_modified, hst]

/-- C9 witness: instantiation of the amended claim at
`src/build/output.js` with the default configuration. -/
theorem C9_witness :
    fnmatch "src/build/output.js" "**/*.js" = true ∧
    (should_track_file DEFAULT_CONFIG "src/build/output.js" = false ∧
      (on_modified DEFAULT_CONFIG (CursorChangeHandler.init 0 0) false
        "src/build/output.js" 0 "2024-01-01 00:00:00" true true).st
        = CursorChangeHandler.init 0 0 ∧
      (on_modified DEFAULT_CONFIG (CursorChangeHandler.init 0 0) false
        "src/build/output.js" 0 "2024-01-01 00:00:00" true true).flushed = false ∧
      (on_modified DEFAULT_CONFIG (CursorChangeHandler.init 0 0) false
        "src/build/output.js" 0 "2024-01-01 00:00:00" true true).committed = none) :=
  ⟨by decide, C9_amended DEFAULT_CONFIG "src/build/output.js"
    (CursorChangeHandler.init 0 0) false 0 "2024-01-01 00:00:00" true true (by decide)⟩

/-! ### C8: rotation preserves the active branch -/

/-- C8: whenever `_create_backup_branch` runs to completion, the
checked-out branch afterwards is the one that was checked out before,
even though the creation step transiently checks out the new branch. -/
theorem C8_active_branch_preserved (cfg : Config) (r : Repo) (ts : String)
    (out : Repo × List String)
    (h : _create_backup_branch cfg r ts = some out) :
    out.1.active_branch = r.active_branch := by
  unfold _create_backup_branch at h
  cases hfind : r.heads.find? (fun b => b.name == r.active_branch) with
  | none => rw [hfind] at h; exact absurd h (by simp)
  | some current =>
    rw [hfind] at h
    have hname : current.name = r.active_branch := by
      have := List.find?_some hfind
      simpa using this
    cases hany : r.heads.any (fun b => b.name == mkBackupName cfg ts) with
    | true => rw [hany] at h; simp at h
    | false =>
      rw [hany] at h
      simp only [Bool.false_eq_true, if_false, Option.some.injEq] at h
      rw [← h]
      unfold _cleanup_backup_branches
      rw [cleanupLoop_fst_active]
      simpa [afterCheckoutBack, afterCheckoutNew, afterCreate] using hname

/-- C8 witness: a concrete completed rotation on `repoW`. -/
theorem C8_witness :
    ∃ out, _create_backup_branch DEFAULT_CONFIG repoW "20240101_000000" = some out ∧
      out.1.active_branch = repoW.active_branch :=
  ⟨_, rfl, C8_active_branch_preserved DEFAULT_CONFIG repoW "20240101_000000" _ rfl⟩

/-! ### C3: one commit per cooldown window, deduplicated -/

/-- C3: for every sequence of events arriving within a window shorter
than `commit_cooldown` after the last commit, no tick of the window
flushes or commits; a flush check at the end of the window (a tracked
event past the cooldown, with the git commit succeeding) produces exactly
one commit whose file list is duplicate-free and contains exactly the
union of the tracked changed paths of the window. -/
theorem C3_window_single_commit (cfg : Config) (st : HandlerState)
    (evs : List Ev) (efin : Ev)
    (h0 : st.pending_changes = [])
    (hw : ∀ e ∈ evs, e.time - st.last_commit_time < cfg.commit_cooldown)
    (hdir : efin.is_directory = false)
    (htr : should_track_file cfg efin.path = true)
    (hT : cfg.commit_cooldown ≤ efin.time - st.last_commit_time)
    (hok : efin.commit_ok = true) :
    (∀ entry ∈ (run cfg st evs).2, entry.flushed = false ∧ entry.committed = none) ∧
    ∃ files,
      (on_modified cfg (run cfg st evs).1 efin.is_directory efin.path efin.time
        efin.ts efin.commit_ok efin.rotate_ok).committed = some files ∧
      files.Nodup ∧
      (∀ p, p ∈ files ↔ p ∈ trackedPaths cfg (evs ++ [efin])) := by
  obtain ⟨hlc, _, hnd, hmem, hlog⟩ := run_window cfg evs st hw
  refine ⟨fun entry he => ⟨(hlog entry he).1, (hlog entry he).2.1⟩, ?_⟩
  refine ⟨setAdd (run cfg st evs).1.pending_changes efin.path, ?_, ?_, ?_⟩
  · have hle : cfg.commit_cooldown ≤
        efin.time - (run cfg st evs).1.last_commit_time := by
      rw [hlc]
      exact hT
    have hne := setAdd_ne_nil (run cfg st evs).1.pending_changes efin.path
    simp only [on_modified, hdir, Bool.false_eq_true, if_false, htr,
      Bool.not_true, try_commit_cases]
    rw [if_pos ⟨hle, hne⟩]
    split_ifs <;> simp [_create_commit, hok]
  · exact setAdd_nodup _ _ (hnd (by simp [h0]))
  · intro p
    rw [setAdd_mem, hmem p, h0]
    have hpaths : trackedPaths cfg (evs ++ [efin])
        = trackedPaths cfg evs ++ [efin.path] := by
      simp [trackedPaths, List.filter_append, hdir, htr]
    rw [hpaths]
    simp only [List.mem_append, List.mem_singleton, List.not_mem_nil]
    tauto

/-- C3 witness: the spec scenario — cooldown 5, changes `a.py` at t=0,
`b.py` at t=2, `a.py` again at t=4, flush check at t=5. -/
theorem C3_witness :
    (∀ entry ∈ (run cfgW3 (CursorChangeHandler.init 0 0) evsW3).2,
      entry.flushed = false ∧ entry.committed = none) ∧
    ∃ files,
      (on_modified cfgW3 (run cfgW3 (CursorChangeHandler.init 0 0) evsW3).1
        efinW3.is_directory efinW3.path efinW3.time efinW3.ts efinW3.commit_ok
        efinW3.rotate_ok).committed = some files ∧
      files.Nodup ∧
      (∀ p, p ∈ files ↔ p ∈ trackedPaths cfgW3 (evsW3 ++ [efinW3])) :=
  C3_window_single_commit cfgW3 (CursorChangeHandler.init 0 0) evsW3 efinW3
    rfl (by decide) rfl (by decide) (by decide) rfl

/-! ### C10: quiet startup -/

/-- Invariant for C10: when both timestamps start at or above `tc` and
`tb`, every flush happens at a tick time at least `tc + commit_cooldown`
and every rotation at a tick time at least `tb + 3600`, and the
timestamps stay at or above `tc` and `tb`. -/
theorem run_startup_bounds (cfg : Config) (tc tb : Int)
    (hcool : 0 ≤ cfg.commit_cooldown) :
    ∀ (evs : List Ev) (st : HandlerState),
      tc ≤ st.last_commit_time → tb ≤ st.last_backup_time →
      tc ≤ (run cfg st evs).1.last_commit_time ∧
      tb ≤ (run cfg st evs).1.last_backup_time ∧
      ∀ entry ∈ (run cfg st evs).2,
        (entry.flushed = true → tc + cfg.commit_cooldown ≤ entry.time) ∧
        (entry.rotated = true → tb + 3600 ≤ entry.time) := by
  intro evs
  induction evs with
  | nil =>
    intro st hc hb
    refine ⟨hc, hb, ?_⟩
    intro entry he
    simp [run] at he
  | cons e rest ih =>
    intro st hc hb
    have key : tc ≤ (on_modified cfg st e.is_directory e.path e.time e.ts
        e.commit_ok e.rotate_ok).st.last_commit_time ∧
        tb ≤ (on_modified cfg st e.is_directory e.path e.time e.ts
          e.commit_ok e.rotate_ok).st.last_backup_time ∧
        ((on_modified cfg st e.is_directory e.path e.time e.ts
          e.commit_ok e.rotate_ok).flushed = true →
            tc + cfg.commit_cooldown ≤ e.time) ∧
        ((on_modified cfg st e.is_directory e.path e.time e.ts
          e.commit_ok e.rotate_ok).rotated = true →
            tb + 3600 ≤ e.time) := by
      by_cases hd : e.is_directory = true
      · simp only [on_modified, hd, if_true]
        exact ⟨hc, hb, by simp, by simp⟩
      · replace hd : e.is_directory = false := by
          cases hx : e.is_directory
          · rfl
          · exact absurd hx hd
        by_cases htr : should_track_file cfg e.path = true
        · simp only [on_modified, hd, Bool.false_eq_true, if_false, htr,
            Bool.not_true, try_commit_cases]
          by_cases hP : cfg.commit_cooldown ≤
              e.time - st.last_commit_time ∧ setAdd st.pending_changes e.path ≠ []
          · rw [if_pos hP]
            by_cases hQ : cfg.create_backup_branches = true ∧
                (3600 : Int) ≤ e.time - st.last_backup_time
            · rw [if_pos hQ]
              have h1 := hP.1
              have h2 := hQ.2
              refine ⟨by simp; omega, by simp; omega, fun _ => by omega,
                fun _ => by omega⟩
            · rw [if_neg hQ]
              have h1 := hP.1
              have hbk := (create_commit_times
                { st with pending_changes := setAdd st.pending_changes e.path }
                e.ts e.commit_ok).2
              refine ⟨by simp; omega, ?_, fun _ => by omega, fun hx => absurd hx (by simp)⟩
              show tb ≤ (_create_commit
                { st with pending_changes := setAdd st.pending_changes e.path }
                e.ts e.commit_ok).1.last_backup_time
              rw [hbk]
              exact hb
          · rw [if_neg hP]
            exact ⟨hc, hb, fun hx => absurd hx (by simp), fun hx => absurd hx (by simp)⟩
        · simp only [on_modified, hd, Bool.false_eq_true, if_false, htr,
            Bool.not_true, Bool.not_false, if_true]
          exact ⟨hc, hb, by simp, by simp⟩
    obtain ⟨ih1, ih2, ih3⟩ := ih _ key.1 key.2.1
    refine ⟨?_, ?_, ?_⟩
    · simpa only [run] using ih1
    · simpa only [run] using ih2
    · intro entry he
      simp only [run, List.mem_cons] at he
      rcases he with he | he
      · rw [he]
        exact ⟨key.2.2.1, key.2.2.2⟩
      · exact ih3 entry he


/-- C10: both timestamps are initialized to the construction time (lines
122 and 125), so for every event sequence no tick flushes (hence no
commit is produced) strictly before `tc + commit_cooldown` and no tick
invokes the rotator strictly before `tb + 3600`, even if trackable
changes arrive immediately. -/
theorem C10_quiet_startup (cfg : Config) (tc tb : Int) (evs : List Ev)
    (hcool : 0 ≤ cfg.commit_cooldown) :
    ∀ entry ∈ (run cfg (CursorChangeHandler.init tc tb) evs).2,
      (entry.flushed = true → tc + cfg.commit_cooldown ≤ entry.time) ∧
      (entry.rotated = true → tb + 3600 ≤ entry.time) :=
  (run_startup_bounds cfg tc tb hcool evs (CursorChangeHandler.init tc tb)
    (le_refl tc) (le_refl tb)).2.2

/-- C10 witness: with construction time 100 and cooldown 5, the first
tick that flushes and rotates happens at t=3701, consistent with the
bounds 100 + 5 and 100 + 3600. -/
theorem C10_witness :
    (100 : Int) + cfgW3.commit_cooldown ≤ 3701 ∧ (100 : Int) + 3600 ≤ 3701 := by
  have h := C10_quiet_startup cfgW3 100 100 [evW "a.py" 3701] (by decide)
    { time := 3701, flushed := true, committed := some ["a.py"], rotated := true }
    (by decide)
  exact ⟨h.1 rfl, h.2 rfl⟩

/-! ### C7: retention cleanup -/

theorem cleanupLoop_snd (m : Nat) :
    ∀ (bs : List Branch) (r : Repo),
      (cleanupLoop m bs r).2 = ((bs.take (bs.length - m)).map Branch.name)
  | [], _ => by simp [cleanupLoop]
  | b :: rest, r => by
    unfold cleanupLoop
    split
    · next hgt =>
      have harith : rest.length + 1 - m = (rest.length - m) + 1 := by omega
      simp only [List.length_cons, harith, List.take_succ_cons, List.map_cons]
      rw [cleanupLoop_snd m rest (deleteHead r b.name)]
    · next hle =>
      have harith : rest.length + 1 - m = 0 := by omega
      simp [harith]

theorem cleanupLoop_fst_heads (m : Nat) :
    ∀ (bs : List Branch) (r : Repo),
      ((cleanupLoop m bs r).1).heads
        = r.heads.filter
            (fun b2 => decide (b2.name ∉ (bs.take (bs.length - m)).map Branch.name))
  | [], r => by simp [cleanupLoop]
  | b :: rest, r => by
    unfold cleanupLoop
    split
    · next hgt =>
      have harith : rest.length + 1 - m = (rest.length - m) + 1 := by omega
      simp only [List.length_cons, harith, List.take_succ_cons, List.map_cons]
      rw [cleanupLoop_fst_heads m rest (deleteHead r b.name)]
      show (r.heads.filter (fun b2 => !(b2.name == b.name))).filter _ = _
      rw [List.filter_filter]
      apply List.filter_congr
      intro x _
      by_cases h1 : x.name = b.name <;>
        by_cases h2 : x.name ∈ (rest.take (rest.length - m)).map Branch.name <;>
          simp [h1, h2]
    · next hle =>
      have harith : rest.length + 1 - m = 0 := by omega
      simp [harith]

theorem cleanupLoop_of_le (m : Nat) (bs : List Branch) (r : Repo)
    (h : bs.length ≤ m) : cleanupLoop m bs r = (r, []) := by
  cases bs with
  | nil => rfl
  | cons b rest =>
    unfold cleanupLoop
    rw [if_neg]
    simp only [List.length_cons] at h
    omega

theorem filter_comm_branch (l : List Branch) (p q : Branch → Bool) :
    (l.filter p).filter q = (l.filter q).filter p := by
  induction l with
  | nil => rfl
  | cons b t ih => by_cases hp : p b <;> by_cases hq : q b <;> simp [hp, hq, ih]

theorem sortByTime_perm (l : List Branch) : (sortByTime l).Perm l :=
  List.perm_insertionSort byTime l

theorem sortByTime_length (l : List Branch) : (sortByTime l).length = l.length :=
  (sortByTime_perm l).length_eq

/-- After one cleanup, at most `max_backup_branches` heads matching the
backup name start remain. -/
theorem cleanup_count_le (cfg : Config) (r : Repo) :
    ((_cleanup_backup_branches cfg r).1.heads.filter
        (fun b => startswith b.name cfg.backup_branch_prefix)).length
      ≤ cfg.max_backup_branches := by
  unfold _cleanup_backup_branches
  rw [cleanupLoop_fst_heads, filter_comm_branch]
  rw [((sortByTime_perm (r.heads.filter
    (fun b => startswith b.name cfg.backup_branch_prefix))).symm.filter _).length_eq]
  set S := sortByTime (r.heads.filter
    (fun b => startswith b.name cfg.backup_branch_prefix)) with hS
  set d := S.length - cfg.max_backup_branches with hd
  set doomed := (S.take d).map Branch.name with hdoomed
  rw [show S.filter (fun b2 => decide (b2.name ∉ doomed))
      = (S.take d).filter (fun b2 => decide (b2.name ∉ doomed))
        ++ (S.drop d).filter (fun b2 => decide (b2.name ∉ doomed)) from by
    rw [← List.filter_append, List.take_append_drop]]
  have htake : (S.take d).filter
      (fun a => decide (a.name ∉ doomed)) = [] := by
    rw [List.filter_eq_nil_iff]
    intro a ha
    simp only [decide_eq_true_eq, not_not, hdoomed]
    exact List.mem_map_of_mem Branch.name ha
  rw [htake]
  simp only [List.nil_append]
  calc ((S.drop d).filter _).length ≤ (S.drop d).length :=
        List.length_filter_le _ _
    _ ≤ cfg.max_backup_branches := by
        rw [List.length_drop]
        omega

/-- C7: retention cleanup deletes exactly the oldest prefix-matching
branches in excess of `max_backup_branches` — the deleted names are the
front of the list of matching heads sorted ascending by the timestamp of
the commit each points to — and is idempotent: run immediately again it
deletes nothing and leaves the repository unchanged. -/
theorem C7_cleanup_oldest_idempotent (cfg : Config) (r : Repo) :
    (_cleanup_backup_branches cfg r).2
      = ((sortByTime (r.heads.filter
          (fun b => startswith b.name cfg.backup_branch_prefix))).take
            ((r.heads.filter
              (fun b => startswith b.name cfg.backup_branch_prefix)).length
              - cfg.max_backup_branches)).map Branch.name ∧
    (sortByTime (r.heads.filter
      (fun b => startswith b.name cfg.backup_branch_prefix))).Pairwise byTime ∧
    _cleanup_backup_branches cfg (_cleanup_backup_branches cfg r).1
      = ((_cleanup_backup_branches cfg r).1, []) := by
  refine ⟨?_, ?_, ?_⟩
  · unfold _cleanup_backup_branches
    rw [cleanupLoop_snd, sortByTime_length]
  · exact List.sorted_insertionSort byTime _
  · have hlen : (sortByTime ((_cleanup_backup_branches cfg r).1.heads.filter
        (fun b => startswith b.name cfg.backup_branch_prefix))).length
        ≤ cfg.max_backup_branches := by
      rw [sortByTime_length]
      exact cleanup_count_le cfg r
    conv_lhs => rw [_cleanup_backup_branches]
    rw [cleanupLoop_of_le _ _ _ hlen]

/-! ### C6: retention across rotations -/

theorem startswith_append (p s : String) : startswith (p ++ s) p = true := by
  simp only [startswith, String.toList, String.data_append,
    List.isPrefixOf_iff_prefix]
  exact List.prefix_append p.data s.data

theorem mkBackupName_startswith (cfg : Config) (ts : String) :
    startswith (mkBackupName cfg ts) cfg.backup_branch_prefix = true := by
  unfold mkBackupName
  rw [String.append_assoc]
  exact startswith_append _ _

theorem ne_of_startswith_ne {a b pre : String}
    (ha : startswith a pre = false) (hb : startswith b pre = true) : a ≠ b := by
  intro h
  rw [h, hb] at ha
  exact absurd ha (by simp)

theorem map_id_of (l : List Branch) (f : Branch → Branch)
    (h : ∀ b ∈ l, f b = b) : l.map f = l := by
  induction l with
  | nil => rfl
  | cons b t ih =>
    simp only [List.map_cons]
    rw [h b (by simp), ih (fun x hx => h x (by simp [hx]))]

theorem filter_take_names :
    ∀ (d : Nat) (X : List Branch), (X.map Branch.name).Nodup →
      X.filter (fun b => decide (b.name ∉ (X.take d).map Branch.name)) = X.drop d := by
  intro d
  induction d with
  | zero =>
    intro X _
    simp
  | succ n ih =>
    intro X hnd
    cases X with
    | nil => simp
    | cons b t =>
      simp only [List.take_succ_cons, List.map_cons, List.drop_succ_cons,
        List.filter_cons]
      have hb : (decide (b.name ∉ b.name :: (t.take n).map Branch.name)) = false := by
        simp
      rw [hb]
      simp only [Bool.false_eq_true, if_false]
      have hbt : b.name ∉ t.map Branch.name := by
        simp only [List.map_cons, List.nodup_cons] at hnd
        exact hnd.1
      have hcongr : t.filter
          (fun x => decide (x.name ∉ b.name :: (t.take n).map Branch.name))
          = t.filter (fun x => decide (x.name ∉ (t.take n).map Branch.name)) := by
        apply List.filter_congr
        intro x hx
        have hxb : x.name ≠ b.name := by
          intro he
          exact hbt (he ▸ List.mem_map_of_mem Branch.name hx)
        by_cases h2 : x.name ∈ (t.take n).map Branch.name <;>
          simp [List.mem_cons, hxb, h2]
      rw [hcongr]
      apply ih t
      simp only [List.map_cons, List.nodup_cons] at hnd
      exact hnd.2

/-- One successful rotation from a repository holding the work branch
(named `main`, tip timestamp `t` — the just-committed commit) followed by
the kept backup branches: the new backup is appended and cleanup keeps
the newest `max_backup_branches` of the sorted backup list. -/
theorem rotate_step (cfg : Config) (main : String) (t : Int) (ts : String)
    (kept : List Branch)
    (hm : startswith main cfg.backup_branch_prefix = false)
    (h2 : ∀ b ∈ kept, startswith b.name cfg.backup_branch_prefix = true)
    (hsorted : (kept ++ [Branch.mk (mkBackupName cfg ts) ⟨t⟩]).Pairwise byTime)
    (hnodup : ((kept ++ [Branch.mk (mkBackupName cfg ts) ⟨t⟩]).map Branch.name).Nodup) :
    _create_backup_branch cfg
        ⟨{ name := main, commit := ⟨t⟩ } :: kept, main⟩ ts
      = some (⟨{ name := main, commit := ⟨t⟩ } ::
            ((kept ++ [Branch.mk (mkBackupName cfg ts) ⟨t⟩]).drop
              ((kept ++ [Branch.mk (mkBackupName cfg ts) ⟨t⟩]).length
                - cfg.max_backup_branches)), main⟩,
          (((kept ++ [Branch.mk (mkBackupName cfg ts) ⟨t⟩]).take
            ((kept ++ [Branch.mk (mkBackupName cfg ts) ⟨t⟩]).length
              - cfg.max_backup_branches)).map Branch.name)) := by
  have hbn := mkBackupName_startswith cfg ts
  have hmainne : main ≠ mkBackupName cfg ts := ne_of_startswith_ne hm hbn
  have hnew : mkBackupName cfg ts ∉ kept.map Branch.name := by
    simp only [List.map_append, List.map_cons, List.map_nil,
      List.nodup_append] at hnodup
    intro hmem
    exact hnodup.2.2 hmem (by simp)
  have hkeptmain : ∀ b ∈ kept, b.name ≠ main := by
    intro b hb he
    have := h2 b hb
    rw [he, hm] at this
    exact absurd this (by simp)
  have hfind : List.find? (fun b => b.name == main)
      ({ name := main, commit := (⟨t⟩ : Commit) } :: kept)
      = some { name := main, commit := (⟨t⟩ : Commit) } :=
    List.find?_cons_of_pos _ (by simp)
  have hany : (({ name := main, commit := (⟨t⟩ : Commit) } :: kept).any
      (fun b => b.name == mkBackupName cfg ts)) = false := by
    rw [List.any_eq_false]
    intro x hx
    simp only [List.mem_cons] at hx
    rcases hx with rfl | hx
    · simp [hmainne]
    · simp only [beq_iff_eq]
      intro he
      exact hnew (he ▸ List.mem_map_of_mem Branch.name hx)
  simp only [_create_backup_branch, hfind, hany, Bool.false_eq_true, if_false]
  have hback : afterCheckoutBack cfg
      ⟨{ name := main, commit := ⟨t⟩ } :: kept, main⟩
      { name := main, commit := ⟨t⟩ } ts
      = ⟨{ name := main, commit := ⟨t⟩ } ::
          (kept ++ [Branch.mk (mkBackupName cfg ts) ⟨t⟩]), main⟩ := by
    simp [afterCheckoutBack, afterCheckoutNew, afterCreate]
  rw [hback]
  unfold _cleanup_backup_branches
  have hfil : (({ name := main, commit := (⟨t⟩ : Commit) } ::
      (kept ++ [Branch.mk (mkBackupName cfg ts) ⟨t⟩])).filter
        (fun b => startswith b.name cfg.backup_branch_prefix))
      = kept ++ [Branch.mk (mkBackupName cfg ts) ⟨t⟩] := by
    rw [List.filter_cons]
    have hmh : (startswith ({ name := main, commit := (⟨t⟩ : Commit) } : Branch).name
        cfg.backup_branch_prefix) = false := hm
    rw [hmh]
    simp only [Bool.false_eq_true, if_false]
    rw [List.filter_eq_self.mpr]
    intro b hb
    simp only [List.mem_append, List.mem_singleton] at hb
    rcases hb with hb | rfl
    · exact h2 b hb
    · exact hbn
  rw [hfil]
  have hsort : sortByTime (kept ++ [Branch.mk (mkBackupName cfg ts) ⟨t⟩])
      = kept ++ [Branch.mk (mkBackupName cfg ts) ⟨t⟩] := by
    unfold sortByTime
    exact List.Sorted.insertionSort_eq hsorted
  rw [hsort]
  have hmainnotB : main ∉ ((kept ++ [Branch.mk (mkBackupName cfg ts) ⟨t⟩]).take
      ((kept ++ [Branch.mk (mkBackupName cfg ts) ⟨t⟩]).length
        - cfg.max_backup_branches)).map Branch.name := by
    intro hmem
    obtain ⟨b, hb, hbname⟩ := List.mem_map.mp hmem
    have hbB := List.take_subset _ _ hb
    simp only [List.mem_append, List.mem_singleton] at hbB
    rcases hbB with hbB | rfl
    · exact hkeptmain b hbB hbname
    · exact hmainne hbname.symm
  have hfst : (cleanupLoop cfg.max_backup_branches
      (kept ++ [Branch.mk (mkBackupName cfg ts) ⟨t⟩])
      ⟨{ name := main, commit := ⟨t⟩ } ::
        (kept ++ [Branch.mk (mkBackupName cfg ts) ⟨t⟩]), main⟩).1
      = ⟨{ name := main, commit := ⟨t⟩ } ::
          ((kept ++ [Branch.mk (mkBackupName cfg ts) ⟨t⟩]).drop
            ((kept ++ [Branch.mk (mkBackupName cfg ts) ⟨t⟩]).length
              - cfg.max_backup_branches)), main⟩ := by
    have hh := cleanupLoop_fst_heads cfg.max_backup_branches
      (kept ++ [Branch.mk (mkBackupName cfg ts) ⟨t⟩])
      ⟨{ name := main, commit := ⟨t⟩ } ::
        (kept ++ [Branch.mk (mkBackupName cfg ts) ⟨t⟩]), main⟩
    have ha := cleanupLoop_fst_active cfg.max_backup_branches
      (kept ++ [Branch.mk (mkBackupName cfg ts) ⟨t⟩])
      ⟨{ name := main, commit := ⟨t⟩ } ::
        (kept ++ [Branch.mk (mkBackupName cfg ts) ⟨t⟩]), main⟩
    rw [List.filter_cons] at hh
    have hmt : (decide ((({ name := main, commit := (⟨t⟩ : Commit) } : Branch)).name
        ∉ ((kept ++ [Branch.mk (mkBackupName cfg ts) ⟨t⟩]).take
          ((kept ++ [Branch.mk (mkBackupName cfg ts) ⟨t⟩]).length
            - cfg.max_backup_branches)).map Branch.name)) = true := by
      simpa using hmainnotB
    rw [hmt, if_pos rfl] at hh
    rw [filter_take_names _ _ hnodup] at hh
    conv_lhs => rw [show (cleanupLoop cfg.max_backup_branches
      (kept ++ [Branch.mk (mkBackupName cfg ts) ⟨t⟩])
      ⟨{ name := main, commit := ⟨t⟩ } ::
        (kept ++ [Branch.mk (mkBackupName cfg ts) ⟨t⟩]), main⟩).1
      = ⟨(cleanupLoop cfg.max_backup_branches
          (kept ++ [Branch.mk (mkBackupName cfg ts) ⟨t⟩])
          ⟨{ name := main, commit := ⟨t⟩ } ::
            (kept ++ [Branch.mk (mkBackupName cfg ts) ⟨t⟩]), main⟩).1.heads,
        (cleanupLoop cfg.max_backup_branches
          (kept ++ [Branch.mk (mkBackupName cfg ts) ⟨t⟩])
          ⟨{ name := main, commit := ⟨t⟩ } ::
            (kept ++ [Branch.mk (mkBackupName cfg ts) ⟨t⟩]), main⟩).1.active_branch⟩
      from rfl]
    rw [hh, ha]
  have hsnd := cleanupLoop_snd cfg.max_backup_branches
    (kept ++ [Branch.mk (mkBackupName cfg ts) ⟨t⟩])
    ⟨{ name := main, commit := ⟨t⟩ } ::
      (kept ++ [Branch.mk (mkBackupName cfg ts) ⟨t⟩]), main⟩
  rw [show cleanupLoop cfg.max_backup_branches
      (kept ++ [Branch.mk (mkBackupName cfg ts) ⟨t⟩])
      ⟨{ name := main, commit := ⟨t⟩ } ::
        (kept ++ [Branch.mk (mkBackupName cfg ts) ⟨t⟩]), main⟩
    = ((cleanupLoop cfg.max_backup_branches
        (kept ++ [Branch.mk (mkBackupName cfg ts) ⟨t⟩])
        ⟨{ name := main, commit := ⟨t⟩ } ::
          (kept ++ [Branch.mk (mkBackupName cfg ts) ⟨t⟩]), main⟩).1,
      (cleanupLoop cfg.max_backup_branches
        (kept ++ [Branch.mk (mkBackupName cfg ts) ⟨t⟩])
        ⟨{ name := main, commit := ⟨t⟩ } ::
          (kept ++ [Branch.mk (mkBackupName cfg ts) ⟨t⟩]), main⟩).2) from rfl]
  rw [hfst, hsnd]

/-- Rotation-sequence invariant: starting from a work branch `main` and a
kept list of backup branches (already within the retention bound, with
strictly increasing commit timestamps below all upcoming rotation
timestamps, and distinct names), a sequence of rotations with strictly
increasing timestamps succeeds and leaves `main` plus the newest
`max_backup_branches` of the created and kept backups. -/
theorem rotations_invariant (cfg : Config) (main : String)
    (hm : startswith main cfg.backup_branch_prefix = false) :
    ∀ (rots : List (String × Int)) (tip : Int) (kept : List Branch),
      (∀ b ∈ kept, startswith b.name cfg.backup_branch_prefix = true) →
      kept.Pairwise (fun a b => a.commit.committed_datetime < b.commit.committed_datetime) →
      (∀ b ∈ kept, ∀ p ∈ rots, b.commit.committed_datetime < p.2) →
      (rots.map Prod.snd).Pairwise (· < ·) →
      ((kept.map Branch.name) ++ rots.map (fun p => mkBackupName cfg p.1)).Nodup →
      kept.length ≤ cfg.max_backup_branches →
      ∃ tip2, rotationsFrom cfg ⟨{ name := main, commit := ⟨tip⟩ } :: kept, main⟩ rots
        = some ⟨{ name := main, commit := ⟨tip2⟩ } ::
            ((kept ++ rots.map (fun p => Branch.mk (mkBackupName cfg p.1) ⟨p.2⟩)).drop
              (kept.length + rots.length - cfg.max_backup_branches)), main⟩ := by
  intro rots
  induction rots with
  | nil =>
    intro tip kept h2 h3 h4 h5 h6 h7
    refine ⟨tip, ?_⟩
    simp only [rotationsFrom, List.map_nil, List.append_nil, List.length_nil,
      Nat.add_zero]
    rw [Nat.sub_eq_zero_of_le h7, List.drop_zero]
  | cons hd rest ih =>
    obtain ⟨ts, t⟩ := hd
    intro tip kept h2 h3 h4 h5 h6 h7
    have hkeptmain : ∀ b ∈ kept, (b.name == main) = false := by
      intro b hb
      rw [beq_eq_false_iff_ne]
      intro he
      have hsw := h2 b hb
      rw [he, hm] at hsw
      exact absurd hsw (by simp)
    have hset : setTip ⟨{ name := main, commit := ⟨tip⟩ } :: kept, main⟩ t
        = ⟨{ name := main, commit := ⟨t⟩ } :: kept, main⟩ := by
      simp only [setTip, List.map_cons, beq_self_eq_true, if_true]
      rw [map_id_of kept _ (fun b hb => by rw [hkeptmain b hb]; simp)]
    have hcross : ∀ b ∈ kept, b.commit.committed_datetime < t := by
      intro b hb
      exact h4 b hb (ts, t) (by simp)
    have hsortedB : (kept ++ [Branch.mk (mkBackupName cfg ts) ⟨t⟩]).Pairwise byTime := by
      rw [List.pairwise_append]
      refine ⟨h3.imp (fun h => le_of_lt h), by simp, ?_⟩
      intro a ha b hb
      simp only [List.mem_singleton] at hb
      subst hb
      exact le_of_lt (hcross a ha)
    have hnodupB : ((kept ++ [Branch.mk (mkBackupName cfg ts) ⟨t⟩]).map Branch.name).Nodup := by
      have h6c := h6
      simp only [List.map_append, List.map_cons, List.map_nil] at h6c ⊢
      rw [List.append_cons] at h6c
      exact h6c.of_append_left
    have hstep := rotate_step cfg main t ts kept hm h2 hsortedB hnodupB
    simp only [rotationsFrom, hset, hstep, List.map_cons]
    set B := kept ++ [Branch.mk (mkBackupName cfg ts) ⟨t⟩] with hB
    set dB := B.length - cfg.max_backup_branches with hdB
    have h2' : ∀ b ∈ B.drop dB, startswith b.name cfg.backup_branch_prefix = true := by
      intro b hb
      have hbB := List.drop_subset _ _ hb
      rw [hB] at hbB
      simp only [List.mem_append, List.mem_singleton] at hbB
      rcases hbB with h | rfl
      · exact h2 b h
      · exact mkBackupName_startswith cfg ts
    have hPB : B.Pairwise
        (fun a b => a.commit.committed_datetime < b.commit.committed_datetime) := by
      rw [hB, List.pairwise_append]
      refine ⟨h3, by simp, ?_⟩
      intro a ha b hb
      simp only [List.mem_singleton] at hb
      subst hb
      exact hcross a ha
    have h3' := List.Pairwise.sublist (List.drop_sublist dB B) hPB
    have h5c : ((t : Int) :: rest.map Prod.snd).Pairwise (· < ·) := by
      simpa using h5
    have h4' : ∀ b ∈ B.drop dB, ∀ p ∈ rest, b.commit.committed_datetime < p.2 := by
      intro b hb p hp
      have hbB := List.drop_subset _ _ hb
      rw [hB] at hbB
      simp only [List.mem_append, List.mem_singleton] at hbB
      rcases hbB with h | rfl
      · exact h4 b h p (by simp [hp])
      · exact (List.pairwise_cons.mp h5c).1 p.2 (List.mem_map_of_mem Prod.snd hp)
    have h5' : (rest.map Prod.snd).Pairwise (· < ·) := (List.pairwise_cons.mp h5c).2
    have h6' : ((B.drop dB).map Branch.name
        ++ rest.map (fun p => mkBackupName cfg p.1)).Nodup := by
      have hBN : (B.map Branch.name ++ rest.map (fun p => mkBackupName cfg p.1)).Nodup := by
        have h6c := h6
        rw [hB]
        simp only [List.map_append, List.map_cons, List.map_nil] at h6c ⊢
        rw [List.append_cons] at h6c
        exact h6c
      apply List.Nodup.sublist _ hBN
      apply List.Sublist.append _ (List.Sublist.refl _)
      rw [List.map_drop]
      exact List.drop_sublist _ _
    have h7' : (B.drop dB).length ≤ cfg.max_backup_branches := by
      rw [List.length_drop]
      omega
    obtain ⟨tip2, heq⟩ := ih t (B.drop dB) h2' h3' h4' h5' h6' h7'
    refine ⟨tip2, ?_⟩
    rw [heq]
    have hBlen : B.length = kept.length + 1 := by
      rw [hB, List.length_append, List.length_cons, List.length_nil]
    have hle : dB ≤ B.length := by omega
    have hXY : (B.drop dB
          ++ rest.map (fun p => Branch.mk (mkBackupName cfg p.1) ⟨p.2⟩)).drop
        ((B.drop dB).length + rest.length - cfg.max_backup_branches)
        = (kept ++ Branch.mk (mkBackupName cfg ts) ⟨t⟩
            :: rest.map (fun p => Branch.mk (mkBackupName cfg p.1) ⟨p.2⟩)).drop
          (kept.length + (rest.length + 1) - cfg.max_backup_branches) := by
      rw [List.append_cons kept (Branch.mk (mkBackupName cfg ts) ⟨t⟩)
        (rest.map (fun p => Branch.mk (mkBackupName cfg p.1) ⟨p.2⟩)), ← hB]
      rw [show B.drop dB ++ rest.map (fun p => Branch.mk (mkBackupName cfg p.1) ⟨p.2⟩)
          = (B ++ rest.map (fun p => Branch.mk (mkBackupName cfg p.1) ⟨p.2⟩)).drop dB
        from (List.drop_append_of_le_length hle).symm]
      rw [List.drop_drop]
      congr 1
      rw [List.length_drop]
      omega
    rw [hXY]
    simp only [List.length_cons]

/-- C6: starting with only the work branch, after any number of
successful rotations (strictly increasing commit timestamps, distinct
generated names) the repository holds the work branch plus exactly the
`min(maxBackupBranches, totalRotations)` most recently created backup
branches: the prefix-matching heads are precisely the created branches
with the oldest `totalRotations - maxBackupBranches` dropped. -/
theorem C6_retention_bound (cfg : Config) (main : String) (tip : Int)
    (rots : List (String × Int))
    (hm : startswith main cfg.backup_branch_prefix = false)
    (hinc : (rots.map Prod.snd).Pairwise (· < ·))
    (hnames : (rots.map (fun p => mkBackupName cfg p.1)).Nodup) :
    ∃ tip2,
      rotationsFrom cfg ⟨[{ name := main, commit := ⟨tip⟩ }], main⟩ rots
        = some ⟨{ name := main, commit := ⟨tip2⟩ } ::
            ((rots.map (fun p => Branch.mk (mkBackupName cfg p.1) ⟨p.2⟩)).drop
              (rots.length - cfg.max_backup_branches)), main⟩ ∧
      (({ name := main, commit := ⟨tip2⟩ } ::
          ((rots.map (fun p => Branch.mk (mkBackupName cfg p.1) ⟨p.2⟩)).drop
            (rots.length - cfg.max_backup_branches)) : List Branch).filter
          (fun b => startswith b.name cfg.backup_branch_prefix))
        = (rots.map (fun p => Branch.mk (mkBackupName cfg p.1) ⟨p.2⟩)).drop
            (rots.length - cfg.max_backup_branches) ∧
      ((rots.map (fun p => Branch.mk (mkBackupName cfg p.1) ⟨p.2⟩)).drop
        (rots.length - cfg.max_backup_branches)).length
        = min cfg.max_backup_branches rots.length := by
  obtain ⟨tip2, heq⟩ := rotations_invariant cfg main hm rots tip []
    (by simp) (by simp) (by simp) hinc (by simpa using hnames) (by simp)
  refine ⟨tip2, ?_, ?_, ?_⟩
  · simpa using heq
  · rw [List.filter_cons]
    have hmh : (startswith ({ name := main, commit := (⟨tip2⟩ : Commit) } : Branch).name
        cfg.backup_branch_prefix) = false := hm
    rw [hmh]
    simp only [Bool.false_eq_true, if_false]
    apply List.filter_eq_self.mpr
    intro b hb
    have hbm := List.drop_subset _ _ hb
    obtain ⟨p, _, rfl⟩ := List.mem_map.mp hbm
    exact mkBackupName_startswith cfg p.1
  · rw [List.length_drop, List.length_map]
    omega

/-- C6 witness: the spec scenario — retention bound 2, three successful
rotations creating B1, B2, B3 in order; afterwards only `main` and the
two newest backups B2 and B3 remain. -/
theorem C6_witness :
    ∃ tip2,
      rotationsFrom { DEFAULT_CONFIG with max_backup_branches := 2 }
          ⟨[{ name := "main", commit := ⟨10⟩ }], "main"⟩
          [("20240101_000000", 11), ("20240101_000001", 12), ("20240101_000002", 13)]
        = some ⟨[{ name := "main", commit := ⟨tip2⟩ },
            { name := "cursor-backup-20240101_000001", commit := ⟨12⟩ },
            { name := "cursor-backup-20240101_000002", commit := ⟨13⟩ }], "main"⟩ := by
  obtain ⟨tip2, h1, _, _⟩ := C6_retention_bound
    { DEFAULT_CONFIG with max_backup_branches := 2 } "main" 10
    [("20240101_000000", 11), ("20240101_000001", 12), ("20240101_000002", 13)]
    (by decide) (by decide) (by decide)
  refine ⟨tip2, ?_⟩
  rw [h1]
  rfl

end CursorGitTracker
